import Mathlib

/-!
Verification of the apirunner test-execution engine (suite.go) against its
natural-language specification.

The Go code is shallowly embedded: decoded JSON values become the mutual
inductive family `Json`/`JsonItems`/`JsonFields` (JSON numbers, which Go
decodes as float64, are modelled as integers; no claim involves fractional
values), the extracted-fields map `map[string]interface{}` becomes an
association list with newest-first lookup, and fallible operations return
`Option`/`Except`.  A Go runtime fault (a failing interface type
assertion) is modelled as `none`.  Go map iteration order is
unspecified; the model iterates fields in their stored order, and prints
maps in sorted key order exactly where Go's `fmt` and `encoding/json` do.
-/

namespace Apirunner

mutual
/-- A decoded JSON value (`interface{}` after `json.Unmarshal` in Go). -/
inductive Json where
  | null
  | bool (b : Bool)
  | num (n : Int)
  | str (s : String)
  | arr (xs : JsonItems)
  | obj (kvs : JsonFields)

/-- The elements of a decoded JSON array (`[]interface{}`). -/
inductive JsonItems where
  | nil
  | cons (hd : Json) (tl : JsonItems)

/-- The fields of a decoded JSON object (`map[string]interface{}`);
fields are kept unique by construction. -/
inductive JsonFields where
  | nil
  | cons (key : String) (val : Json) (tl : JsonFields)
end

/-- Build array elements from a list. -/
def ofItems : List Json → JsonItems
  | [] => .nil
  | x :: rest => .cons x (ofItems rest)

/-- Build object fields from a list of pairs. -/
def ofFields : List (String × Json) → JsonFields
  | [] => .nil
  | (k, v) :: rest => .cons k v (ofFields rest)

/-- Array value from a list (convenience constructor). -/
def jarr (xs : List Json) : Json := .arr (ofItems xs)

/-- Object value from a list of pairs (convenience constructor). -/
def jobj (kvs : List (String × Json)) : Json := .obj (ofFields kvs)

/-- Number of elements of a decoded array. -/
def itemsLen : JsonItems → Nat
  | .nil => 0
  | .cons _ tl => itemsLen tl + 1

/-- First-match lookup among object fields. -/
def lookupFields : JsonFields → String → Option Json
  | .nil, _ => none
  | .cons k v tl, key => if k == key then some v else lookupFields tl key

/-- Is `v` a scalar (neither object nor array)? -/
def isScalar : Json → Bool
  | .arr _ => false
  | .obj _ => false
  | _ => true

/-- The extracted-fields store `map[string]interface{}`: an association list
where an insert conses on the front, so the newest binding shadows older
ones (matching Go map overwrite semantics for lookups). -/
abbrev Store := List (String × Json)

/-- First-match lookup (the newest binding wins). -/
def lookupStore : Store → String → Option Json
  | [], _ => none
  | (k, v) :: rest, key => if k == key then some v else lookupStore rest key

/-- Insert a list of bindings in order (later entries shadow earlier ones,
as later Go map writes overwrite earlier ones). -/
def insertAll (fields : Store) : List (String × Json) → Store
  | [] => fields
  | kv :: rest => insertAll (kv :: fields) rest

/-- Join strings with a separator. -/
def joinSep (sep : String) : List String → String
  | [] => ""
  | [x] => x
  | x :: rest => x ++ sep ++ joinSep sep rest

/-- Lexicographic comparison of characters by code point (for UTF-8
strings this coincides with Go's byte-wise `sort.Strings` order). -/
def lexLe : List Char → List Char → Bool
  | [], _ => true
  | _ :: _, [] => false
  | a :: as, b :: bs =>
    if a.toNat < b.toNat then true
    else if b.toNat < a.toNat then false
    else lexLe as bs

def strLe (a b : String) : Bool := lexLe a.data b.data

/-- Insertion-sort step on key/value string pairs. -/
def insertSorted (kv : String × String) : List (String × String) → List (String × String)
  | [] => [kv]
  | hd :: tl => if strLe kv.1 hd.1 then kv :: hd :: tl else hd :: insertSorted kv tl

/-- Sort key/value string pairs by key (Go's `fmt` and `encoding/json`
print map keys in sorted order). -/
def sortPairs : List (String × String) → List (String × String)
  | [] => []
  | kv :: rest => insertSorted kv (sortPairs rest)

mutual
/-- `fmt.Sprint` of a decoded JSON value: strings print bare, arrays as
`[a b]`, maps as `map[k:v ...]` with sorted keys, nil as `<nil>`. -/
def sprint : Json → String
  | .null => "<nil>"
  | .bool b => cond b "true" "false"
  | .num n => toString n
  | .str s => s
  | .arr xs => "[" ++ joinSep " " (sprintItems xs) ++ "]"
  | .obj kvs =>
    "map[" ++
      joinSep " " ((sortPairs (sprintFields kvs)).map (fun kv => kv.1 ++ ":" ++ kv.2)) ++
    "]"

def sprintItems : JsonItems → List String
  | .nil => []
  | .cons hd tl => sprint hd :: sprintItems tl

def sprintFields : JsonFields → List (String × String)
  | .nil => []
  | .cons k v tl => (k, sprint v) :: sprintFields tl
end

/-! ## Template Resolver (suite.go `templateReplace`, lines 449-469)

The Go code compiles the regexp `{{\s*[^\s]+\s*}}` and calls `FindAll`.
Go regexps use leftmost-first (backtracking-order) match semantics, which
for this pattern means: after the literal open braces, `\s*` consumes the
maximal whitespace run (shrinking it can never help, because `[^\s]+`
cannot start on a whitespace character), then `[^\s]+` takes the longest
prefix of the following non-whitespace run that still lets `\s*}}` match
the remainder. -/

/-- RE2 `\s`: `[\t\n\f\r ]`. -/
def goIsSpace (c : Char) : Bool :=
  c == ' ' || c == '\t' || c == '\n' || c == '\x0c' || c == '\r'

/-- Length of the longest prefix of `cs` all of whose characters satisfy `p`. -/
def countLeading (p : Char → Bool) : List Char → Nat
  | [] => 0
  | c :: rest => if p c then countLeading p rest + 1 else 0

/-- Does `cs` start with the two literal close braces of the pattern? -/
def startsCloseBraces : List Char → Bool
  | '\x7d' :: '\x7d' :: _ => true
  | _ => false

/-- Backtracking search for the longest `t < r` such that after a token
prefix of length `t` the two close braces follow immediately (used when the
full non-whitespace run is not followed by `\s*}}`).  `innerT cs k` tries
`t = k, k-1, …, 1`. -/
def innerT (cs : List Char) : Nat → Option Nat
  | 0 => none
  | Nat.succ k =>
    if cs.getD (k + 1) 'x' == '\x7d' && cs.getD (k + 2) 'x' == '\x7d' then
      some (k + 1)
    else innerT cs k

/-- Leftmost-first match of `{{\s*[^\s]+\s*}}` anchored at the head of
`cs`; returns the length of the matched text. -/
def matchAt : List Char → Option Nat
  | '\x7b' :: '\x7b' :: rest =>
    let w1 := countLeading goIsSpace rest
    let rest2 := rest.drop w1
    let r := countLeading (fun c => !goIsSpace c) rest2
    if r == 0 then none
    else
      -- greedy attempt: the whole non-whitespace run, then `\s*`, then `}}`
      let rest3 := rest2.drop r
      let w2 := countLeading goIsSpace rest3
      if startsCloseBraces (rest3.drop w2) then some (2 + w1 + r + w2 + 2)
      else
        match innerT rest2 (r - 1) with
        | some t => some (2 + w1 + t + 2)
        | none => none
  | _ => none

/-- `regexp.FindAll`: scan left to right, emit each leftmost match and
resume immediately after it.  The fuel is the scan length; every step
consumes at least one character. -/
def findAllGo : Nat → List Char → List (List Char)
  | 0, _ => []
  | _, [] => []
  | Nat.succ fuel, c :: cs =>
    match matchAt (c :: cs) with
    | some len => (c :: cs).take len :: findAllGo fuel ((c :: cs).drop len)
    | none => findAllGo fuel cs

/-- All matches of the template-placeholder regexp in `s`. -/
def findAllMatches (s : String) : List String :=
  (findAllGo s.data.length s.data).map (fun cs => String.mk cs)

/-- The cutset of Go `strings.Trim(match, "{ }")`. -/
def trimCutset (c : Char) : Bool :=
  c == '\x7b' || c == '\x7d' || c == ' '

/-- `strings.Trim(m, "{ }")`: strip cutset characters from both ends. -/
def trimVar (s : String) : String :=
  String.mk (((s.data.dropWhile trimCutset).reverse.dropWhile trimCutset).reverse)

/-- `strings.Replace(s, pat, repl, 1)`: replace the first occurrence of
`pat` (our patterns are regexp matches, hence non-empty). -/
def replaceFirstGo (pat repl : List Char) : Nat → List Char → List Char
  | 0, cs => cs
  | Nat.succ fuel, cs =>
    match cs with
    | [] => []
    | c :: rest =>
      if pat.isPrefixOf cs then repl ++ cs.drop pat.length
      else c :: replaceFirstGo pat repl fuel rest

def replaceFirst (s pat repl : String) : String :=
  String.mk (replaceFirstGo pat.data repl.data s.data.length s.data)

/-- The substitution loop of `templateReplace`: for each match text, trim
the braces to obtain the variable name, look it up, and on success replace
the first occurrence of the match text in the (already partially
substituted) string; on a missing key return the current string together
with the error. -/
def templateSub (fields : Store) : List String → String → String × Option String
  | [], s => (s, none)
  | m :: rest, s =>
    let varName := trimVar m
    match lookupStore fields varName with
    | none => (s, some ("missing template value for var: \x27" ++ varName ++ "\x27"))
    | some v => templateSub fields rest (replaceFirst s m (sprint v))

/-- suite.go `templateReplace` (lines 449-469): replaces every
`{{ value }}` placeholder in `s` with the stringified value from
`extractedFields`; returns the (possibly partially substituted) string and
an error when some variable has no entry. -/
def templateReplace (s : String) (extractedFields : Store) : String × Option String :=
  match findAllMatches s with
  | [] => (s, none)
  | ms => templateSub extractedFields ms s

/-! ## Value Flattener (suite.go `flatten`, lines 471-535) -/

/-- Wrap a flattened key with the prefix, exactly when the Go code does:
only at recursion level 0 and only for a non-empty prefix. -/
def withPfx (level : Nat) (pfx : String) (k : String) : String :=
  if level == 0 && pfx != "" then pfx ++ "." ++ k else k

mutual
/-- suite.go `flatten`: converts a decoded JSON value into a flat list of
path/value pairs.  Object keys compose with `.` for object children and
by direct concatenation for array children; array indices produce
`[i].k` for object elements, `[i]k` for array elements, and the bare
decimal index for scalar elements.  Scalars at the top level produce
nothing (the `switch` has no default case). -/
def flatten : Json → String → Nat → List (String × Json)
  | .arr xs, pfx, level => flattenItems xs 0 pfx level
  | .obj kvs, pfx, level => flattenFields kvs pfx level
  | _, _, _ => []

def flattenItems : JsonItems → Nat → String → Nat → List (String × Json)
  | .nil, _, _, _ => []
  | .cons hd tl, i, pfx, level =>
    (match hd with
     | .obj kvs =>
       (flattenFields kvs pfx (level + 1)).map
         (fun kv => (withPfx level pfx ("[" ++ toString i ++ "]." ++ kv.1), kv.2))
     | .arr ys =>
       (flattenItems ys 0 pfx (level + 1)).map
         (fun kv => (withPfx level pfx ("[" ++ toString i ++ "]" ++ kv.1), kv.2))
     | v => [(withPfx level pfx (toString i), v)]) ++
    flattenItems tl (i + 1) pfx level

def flattenFields : JsonFields → String → Nat → List (String × Json)
  | .nil, _, _ => []
  | .cons key val tl, pfx, level =>
    (match val with
     | .obj kvs =>
       (flattenFields kvs pfx (level + 1)).map
         (fun kv => (withPfx level pfx (key ++ "." ++ kv.1), kv.2))
     | .arr ys =>
       (flattenItems ys 0 pfx (level + 1)).map
         (fun kv => (withPfx level pfx (key ++ kv.1), kv.2))
     | v => [(withPfx level pfx key, v)]) ++
    flattenFields tl pfx level
end

/-! ## JSON encoding (`encoding/json` marshal/unmarshal, as used by
suite.go).  Strings are escaped for quote, backslash and the common
control characters (Go additionally escapes `<`, `>`, `&`; no claim
involves those). -/

def escChar (c : Char) : String :=
  if c == '"' then "\\\""
  else if c == '\\' then "\\\\"
  else if c == '\n' then "\\n"
  else if c == '\t' then "\\t"
  else if c == '\r' then "\\r"
  else String.singleton c

def quoteStr (s : String) : String :=
  "\"" ++ String.join (s.data.map escChar) ++ "\""

mutual
/-- `json.Marshal` of a decoded value: compact encoding, map keys in
sorted order (as Go does for maps). -/
def jsonMarshal : Json → String
  | .null => "null"
  | .bool b => cond b "true" "false"
  | .num n => toString n
  | .str s => quoteStr s
  | .arr xs => "[" ++ joinSep "," (marshalItems xs) ++ "]"
  | .obj kvs =>
    "\x7b" ++
      joinSep "," ((sortPairs (marshalFields kvs)).map (fun kv => quoteStr kv.1 ++ ":" ++ kv.2)) ++
    "\x7d"

def marshalItems : JsonItems → List String
  | .nil => []
  | .cons hd tl => jsonMarshal hd :: marshalItems tl

def marshalFields : JsonFields → List (String × String)
  | .nil => []
  | .cons k v tl => (k, jsonMarshal v) :: marshalFields tl
end

/-- JSON whitespace. -/
def jsonWs (c : Char) : Bool :=
  c == ' ' || c == '\t' || c == '\n' || c == '\r'

def skipWs (cs : List Char) : List Char := cs.dropWhile jsonWs

/-- Scan a JSON string literal after the opening quote; handles the
escapes produced by `jsonMarshal` (`\u` escapes are not modelled). -/
def parseStr : List Char → Option (List Char × List Char)
  | [] => none
  | '\\' :: e :: rest =>
    let esc : Option Char :=
      if e == '"' then some '"'
      else if e == '\\' then some '\\'
      else if e == '/' then some '/'
      else if e == 'n' then some '\n'
      else if e == 't' then some '\t'
      else if e == 'r' then some '\r'
      else none
    match esc with
    | none => none
    | some c =>
      match parseStr rest with
      | none => none
      | some (cs, rem) => some (c :: cs, rem)
  | '"' :: rest => some ([], rest)
  | c :: rest =>
    match parseStr rest with
    | none => none
    | some (cs, rem) => some (c :: cs, rem)

/-- Digits → natural number (decimal). -/
def digitsToNat (acc : Nat) : List Char → Nat
  | [] => acc
  | c :: rest => digitsToNat (acc * 10 + (c.toNat - '0'.toNat)) rest

/-- Replace an existing key or append (Go `m[k] = v` while decoding an
object: a duplicated key keeps the last value). -/
def fieldsInsert : List (String × Json) → String → Json → List (String × Json)
  | [], k, v => [(k, v)]
  | (k0, v0) :: rest, k, v =>
    if k0 == k then (k, v) :: rest else (k0, v0) :: fieldsInsert rest k v

/-- Parser mode: a value, the remaining elements of an array, or the
remaining members of an object. -/
inductive PMode where
  | value
  | arrElems (acc : List Json)
  | objMems (acc : List (String × Json))

/-- Recursive-descent JSON parser (fuel-indexed; JSON numbers are
modelled as integers, so a fractional or exponent part is rejected). -/
def parseF : Nat → PMode → List Char → Option (Json × List Char)
  | 0, _, _ => none
  | fuel + 1, PMode.value, cs =>
    (match skipWs cs with
     | 'n' :: 'u' :: 'l' :: 'l' :: rest => some (.null, rest)
     | 't' :: 'r' :: 'u' :: 'e' :: rest => some (.bool true, rest)
     | 'f' :: 'a' :: 'l' :: 's' :: 'e' :: rest => some (.bool false, rest)
     | '"' :: rest =>
       (match parseStr rest with
        | none => none
        | some (cs', rem) => some (.str (String.mk cs'), rem))
     | '[' :: rest =>
       (match skipWs rest with
        | ']' :: rest2 => some (jarr [], rest2)
        | rest2 => parseF fuel (PMode.arrElems []) rest2)
     | '\x7b' :: rest =>
       (match skipWs rest with
        | '\x7d' :: rest2 => some (jobj [], rest2)
        | rest2 => parseF fuel (PMode.objMems []) rest2)
     | '-' :: rest =>
       let d := countLeading Char.isDigit rest
       if d == 0 then none
       else some (.num (-(Int.ofNat (digitsToNat 0 (rest.take d)))), rest.drop d)
     | c :: rest =>
       if c.isDigit then
         let d := countLeading Char.isDigit (c :: rest)
         some (.num (Int.ofNat (digitsToNat 0 ((c :: rest).take d))), (c :: rest).drop d)
       else none
     | [] => none)
  | fuel + 1, PMode.arrElems acc, cs =>
    (match parseF fuel PMode.value cs with
     | none => none
     | some (v, rest) =>
       match skipWs rest with
       | ',' :: rest2 => parseF fuel (PMode.arrElems (acc ++ [v])) rest2
       | ']' :: rest2 => some (jarr (acc ++ [v]), rest2)
       | _ => none)
  | fuel + 1, PMode.objMems acc, cs =>
    (match skipWs cs with
     | '"' :: rest =>
       (match parseStr rest with
        | none => none
        | some (kcs, rest2) =>
          match skipWs rest2 with
          | ':' :: rest3 =>
            (match parseF fuel PMode.value rest3 with
             | none => none
             | some (v, rest4) =>
               match skipWs rest4 with
               | ',' :: rest5 => parseF fuel (PMode.objMems (fieldsInsert acc (String.mk kcs) v)) rest5
               | '\x7d' :: rest5 => some (jobj (fieldsInsert acc (String.mk kcs) v), rest5)
               | _ => none)
          | _ => none)
     | _ => none)

/-- `json.Unmarshal` of a byte string into `interface{}`: the whole text
must be one JSON value (trailing whitespace allowed). -/
def parseJson (s : String) : Option Json :=
  match parseF (2 * s.data.length + 4) PMode.value s.data with
  | some (v, rest) => if skipWs rest == [] then some v else none
  | none => none

/-! ## Structural Differ (the github.com/go-test/deep library as observed
by suite.go).  Modelled from the library's observable diff format:
`<path>: <a> != <b>` where paths compose with `.` and use `map[k]` and
`slice[i]` segments; a top-level type mismatch prints the two Go type
names; one-sided entries print `<does not have key>` / `<no value>`.
The library's MaxDiff truncation (10 by default) is not modelled; no
claim involves more than a handful of diffs. -/

def dpath (path seg : String) : String :=
  if path == "" then seg else path ++ "." ++ seg

def fmtDiff (path a b : String) : String :=
  if path == "" then a ++ " != " ++ b else path ++ ": " ++ a ++ " != " ++ b

/-- Go dynamic type name of a decoded JSON value. -/
def typeName : Json → String
  | .null => "<nil>"
  | .bool _ => "bool"
  | .num _ => "float64"
  | .str _ => "string"
  | .arr _ => "[]interface \x7b\x7d"
  | .obj _ => "map[string]interface \x7b\x7d"

/-- Trailing elements present only on the actual side. -/
def extraItemsA (path : String) : Nat → JsonItems → List String
  | _, .nil => []
  | i, .cons hd tl =>
    fmtDiff (dpath path ("slice[" ++ toString i ++ "]")) (sprint hd) "<no value>" ::
    extraItemsA path (i + 1) tl

/-- Trailing elements present only on the expected side. -/
def extraItemsB (path : String) : Nat → JsonItems → List String
  | _, .nil => []
  | i, .cons hd tl =>
    fmtDiff (dpath path ("slice[" ++ toString i ++ "]")) "<no value>" (sprint hd) ::
    extraItemsB path (i + 1) tl

def memberFields : JsonFields → String → Bool
  | .nil, _ => false
  | .cons k _ tl, key => k == key || memberFields tl key

/-- Keys of `ys` that `xs` does not have. -/
def extraFieldsB (path : String) (xs : JsonFields) : JsonFields → List String
  | .nil => []
  | .cons k v tl =>
    (if memberFields xs k then []
     else [fmtDiff (dpath path ("map[" ++ k ++ "]")) "<does not have key>" (sprint v)]) ++
    extraFieldsB path xs tl

mutual
/-- `deep.Equal` on two decoded JSON values, producing diff strings. -/
def deepEqual : String → Json → Json → List String
  | _, .null, .null => []
  | path, .bool x, .bool y =>
    if x == y then [] else [fmtDiff path (cond x "true" "false") (cond y "true" "false")]
  | path, .num x, .num y =>
    if x == y then [] else [fmtDiff path (toString x) (toString y)]
  | path, .str x, .str y =>
    if x == y then [] else [fmtDiff path x y]
  | path, .arr xs, .arr ys => deepEqualItems path 0 xs ys
  | path, .obj xs, .obj ys => deepEqualFields path ys xs ++ extraFieldsB path xs ys
  | path, .null, b => [fmtDiff path "<nil pointer>" (typeName b)]
  | path, a, .null => [fmtDiff path (typeName a) "<nil pointer>"]
  | path, a, b => [fmtDiff path (typeName a) (typeName b)]

def deepEqualItems : String → Nat → JsonItems → JsonItems → List String
  | path, i, .nil, rest => extraItemsB path i rest
  | path, i, .cons hd tl, .nil => extraItemsA path i (.cons hd tl)
  | path, i, .cons a atl, .cons b btl =>
    deepEqual (dpath path ("slice[" ++ toString i ++ "]")) a b ++
    deepEqualItems path (i + 1) atl btl

/-- Walk the actual object's fields, comparing each against the expected
object `ys` (a missing key produces a one-sided diff). -/
def deepEqualFields : String → JsonFields → JsonFields → List String
  | _, _, .nil => []
  | path, ys, .cons k v tl =>
    (match lookupFields ys k with
     | some w => deepEqual (dpath path ("map[" ++ k ++ "]")) v w
     | none => [fmtDiff (dpath path ("map[" ++ k ++ "]")) (sprint v) "<does not have key>"]) ++
    deepEqualFields path ys tl
end

/-! ## Data model of a suite (suite.go lines 46-100).  Go decodes absent
JSON fields to zero values: an absent `body` is a nil `interface{}`,
modelled as `Json.null`.  Wall-clock durations are not modelled. -/

structure Request where
  method : String
  baseUrl : String
  url : String
  body : Json
  headers : List (String × String)

structure ExpectedResponse where
  statusCode : Int
  body : Json
  headers : List (String × String)

structure TestSpec where
  name : String
  skip : Bool
  request : Request
  expectedResponse : ExpectedResponse

structure TestSuiteSpec where
  skip : Bool
  ignoredFields : List String
  baseUrl : String
  tests : List TestSpec

structure RunConfig where
  baseUrl : String
  customHeaders : List (String × String)

structure HttpRequest where
  method : String
  url : String
  headers : List (String × String)
  body : String

structure HttpResponse where
  statusCode : Int
  headers : List (String × List String)
  body : String

structure TestResult where
  passed : Bool
  skipped : Bool
  name : String
  errors : List String

def Failed (name : String) (errors : List String) : TestResult :=
  ⟨false, false, name, errors⟩

def Passed (name : String) : TestResult :=
  ⟨true, false, name, []⟩

def Skipped (name : String) : TestResult :=
  ⟨false, true, name, []⟩

/-- Generic association-list lookup (first match). -/
def assocLookup {α : Type} : List (String × α) → String → Option α
  | [], _ => none
  | (k, v) :: rest, key => if k == key then some v else assocLookup rest key

/-- Go `unicode.IsSpace` restricted to ASCII (`strings.TrimSpace`). -/
def goUnicodeSpace (c : Char) : Bool :=
  c == ' ' || c == '\t' || c == '\n' || c == '\r' || c == '\x0b' || c == '\x0c'

def trimSpace (s : String) : String :=
  String.mk (((s.data.dropWhile goUnicodeSpace).reverse.dropWhile goUnicodeSpace).reverse)

/-- Valid MIME header token characters (net/textproto). -/
def validHeaderChar (c : Char) : Bool :=
  c.isAlphanum || "!#$%&\x27*+-.^_`|~".data.contains c

def canonGo : Bool → List Char → List Char
  | _, [] => []
  | up, c :: rest => (if up then c.toUpper else c.toLower) :: canonGo (c == '-') rest

/-- `http.CanonicalHeaderKey`: capitalize the first letter of each
hyphen-separated word, lowercase the rest; a key containing an invalid
header character is returned unchanged. -/
def canonicalHeaderKey (s : String) : String :=
  if s.data.all validHeaderChar then String.mk (canonGo true s.data) else s

/-- `strings.Cut(s, sep)`: split around the first occurrence of `sep`. -/
def cutGo (sep : List Char) : List Char → Option (List Char × List Char)
  | [] => none
  | c :: rest =>
    if sep.isPrefixOf (c :: rest) then some ([], (c :: rest).drop sep.length)
    else
      match cutGo sep rest with
      | some (pre, post) => some (c :: pre, post)
      | none => none

def cutFirst (s sep : String) : Option (String × String) :=
  match cutGo sep.data s.data with
  | some (pre, post) => some (String.mk pre, String.mk post)
  | none => none

def strEndsWith (s suf : String) : Bool := suf.data.isSuffixOf s.data

/-! ## Structural comparison (suite.go `compareObjects`, lines 397-446) -/

/-- The ignored-fields regexp `\[f1\]$|\[f2\]$|…` built by joining the
configured names with `\]$|\[` (suite.go line 428): a diff's field path is
ignored when it ends in `[f]` for some configured name `f`.  With no
configured names the joined pattern degenerates to `\[\]$`, i.e. a literal
`[]` suffix.  Names are matched as literal text (the source compiles them
into a regexp unescaped; behavior for names containing regexp
metacharacters is unspecified, and the compile-error path is not
modelled). -/
def ignoredMatch (ignored : List String) (field : String) : Bool :=
  (if ignored.isEmpty then [""] else ignored).any
    (fun f => strEndsWith field ("[" ++ f ++ "]"))

/-- The diff post-processing loop of `compareObjects`: each diff is split
at the first `": "`; a malformed diff aborts with the diffs accumulated so
far plus a hard error; otherwise diffs whose field path matches an ignored
field are dropped. -/
def filterDiffs (ignored : List String) : List String → List String × Option String
  | [] => ([], none)
  | d :: rest =>
    match cutFirst d ": " with
    | none => ([], some ("unexpectedly formatted diff " ++ d ++ " returned by deep.Equal"))
    | some (field, _) =>
      let (ds, e) := filterDiffs ignored rest
      ((if ignoredMatch ignored field then [] else [d]) ++ ds, e)

/-- suite.go `compareObjects` (lines 397-446): flatten the actual object
into the store under the prefix, marshal the expected object, resolve its
template placeholders against the store, re-decode it, deep-compare, and
filter ignored fields.  Returns (diffs, error, updated store); the store
writes happen before any error exit. -/
def compareObjects (suite : TestSuiteSpec) (obj expectedObj : JsonFields)
    (fields : Store) (objPfx : String) : List String × Option String × Store :=
  let fields' := insertAll fields (flatten (.obj obj) objPfx 0)
  let expectedObjBytes := jsonMarshal (.obj expectedObj)
  match templateReplace expectedObjBytes fields' with
  | (_, some e) => ([], some ("error replacing template vars in expectedObj: " ++ e), fields')
  | (expectedObjStr, none) =>
    match parseJson expectedObjStr with
    | some (.obj processedExpectedObj) =>
      let deepLibDiffs := deepEqual "" (.obj obj) (.obj processedExpectedObj)
      let (diffs, err) := filterDiffs suite.ignoredFields deepLibDiffs
      (diffs, err, fields')
    | _ =>
      -- substitution produced text that does not decode to a JSON object
      ([], some "error unmarshaling expectedObj: json unmarshal error", fields')

/-- The per-index loop of the array branch of `executeTest` (suite.go
lines 371-381): each element pair goes through `compareObjects` under
prefix `<name>[<i>]` after interface type assertions to
`map[string]interface{}` on both sides; a non-object element makes the
assertion fail, a Go runtime fault (`none`). -/
def compareArrayElems (suite : TestSuiteSpec) (name : String) :
    Nat → JsonItems → JsonItems → Store → Option (List String × Store)
  | i, .cons a atl, .cons b btl, fields =>
    (match a, b with
     | .obj ao, .obj bo =>
       let (differences, err, fields') :=
         compareObjects suite ao bo fields (name ++ "[" ++ toString i ++ "]")
       (match compareArrayElems suite name (i + 1) atl btl fields' with
        | none => none
        | some (restErrs, fields'') =>
          some ((match err with
                 | some e => ["Error comparing actual and expected responses: " ++ e]
                 | none => []) ++ differences ++ restErrs, fields''))
     | _, _ => none)
  | _, _, _, fields => some ([], fields)

/-- The response-body comparison switch of `executeTest` (suite.go lines
349-388), dispatching on the dynamic shape of the decoded actual body `r`.
The object and array branches assert the expected body (and, per element,
both array elements) to the matching Go type without checking; a failing
assertion is a runtime fault, modelled as `none`. -/
def compareBody (suite : TestSuiteSpec) (name : String) (fields : Store)
    (r expectedResponse : Json) : Option (List String × Store) :=
  match r with
  | .obj o =>
    (match expectedResponse with
     | .obj e =>
       let (differences, err, fields') := compareObjects suite o e fields name
       some ((match err with
              | some e' => ["Error comparing actual and expected responses: " ++ e']
              | none => []) ++ differences, fields')
     | _ => none)
  | .arr response =>
    (match expectedResponse with
     | .arr expected =>
       if itemsLen response != itemsLen expected then
         some (["The number of array elements in response and expectedResponse don\x27t match"], fields)
       else compareArrayElems suite name 0 response expected fields
     | _ => none)
  | _ => some (deepEqual "" r expectedResponse, fields)

/-! ## Test Case Executor (suite.go `executeTest`, lines 231-395) -/

/-- Base URL precedence (suite.go lines 261-267): a non-empty
request-level baseUrl wins, else a non-empty suite-level baseUrl, else the
run-level default. -/
def resolveBaseUrl (cfgUrl suiteUrl reqUrl : String) : String :=
  let b1 := if suiteUrl != "" then suiteUrl else cfgUrl
  if reqUrl != "" then reqUrl else b1

/-- Request-body preparation (suite.go lines 236-259): a nil body sends
`{}` with no memoization; otherwise the marshaled body is
template-resolved (failure fails the test) and the original body is
flattened into the store under `<name>.request.body.`.  (`json.Marshal`
cannot fail on a decoded JSON value, so that error exit is vacuous.) -/
def prepBody (test : TestSpec) (fields : Store) : Except String (String × Store) :=
  match test.request.body with
  | .null => .ok ("\x7b\x7d", fields)
  | body =>
    let reqBodyBytes := jsonMarshal body
    match templateReplace reqBodyBytes fields with
    | (_, some e) => .error e
    | (processedRequestBody, none) =>
      .ok (processedRequestBody,
           insertAll fields
             ((flatten body "" 0).map (fun kv => (test.name ++ ".request.body." ++ kv.1, kv.2))))

/-- Per-test request headers with template resolution (suite.go lines
284-291); the first resolution failure fails the test. -/
def resolveTestHeaders (fields : Store) : List (String × String) → Except String (List (String × String))
  | [] => .ok []
  | (k, v) :: rest =>
    match templateReplace v fields with
    | (_, some e) => .error e
    | (headerVal, none) =>
      match resolveTestHeaders fields rest with
      | .error e => .error e
      | .ok hs => .ok ((canonicalHeaderKey k, headerVal) :: hs)

/-- Run-level custom headers (added unconditionally, no substitution,
suite.go lines 281-283) followed by the resolved per-test headers. -/
def buildRequestHeaders (cfg : RunConfig) (test : TestSpec) (fields : Store) :
    Except String (List (String × String)) :=
  match resolveTestHeaders fields test.request.headers with
  | .error e => .error e
  | .ok hs => .ok (cfg.customHeaders.map (fun kv => (canonicalHeaderKey kv.1, kv.2)) ++ hs)

/-- Response-header memoization (suite.go lines 305-308): every response
header is stored under `<name>.header.<headerName>` as the comma-joined,
space-trimmed value. -/
def memoizeRespHeaders (name : String) (respHeaders : List (String × List String))
    (fields : Store) : Store :=
  insertAll fields
    (respHeaders.map (fun kv => (name ++ ".header." ++ kv.1, Json.str (trimSpace (joinSep "," kv.2)))))

/-- Expected-response-header checks (suite.go lines 310-324). -/
def checkExpectedHeaders (fields : Store) (respHeaders : List (String × List String)) :
    List (String × String) → List String
  | [] => []
  | (expName, expValTemplate) :: rest =>
    (match assocLookup respHeaders (canonicalHeaderKey expName) with
     | some actualVals =>
       (match templateReplace expValTemplate fields with
        | (_, some _) => ["Invalid expected response header template " ++ expValTemplate]
        | (expHeaderVal, none) =>
          let actualVal := joinSep "," actualVals
          if actualVal != expHeaderVal then
            ["Expected response header \x27" ++ expName ++ ": " ++ expHeaderVal ++
             "\x27 but got \x27" ++ expName ++ ": " ++ actualVal ++ "\x27"]
          else [])
     | none =>
       ["Expected response header \x27" ++ expName ++ ": " ++ expValTemplate ++ "\x27 not present"]) ++
    checkExpectedHeaders fields respHeaders rest

/-- suite.go `executeTest` (lines 231-395).  The transport is the
injectable `HttpClient` capability `httpDo` (`.error` is a transport
failure); the response body arrives as a string (the `io.ReadAll` error
exit is not modelled).  `http.NewRequest` construction errors are not
modelled.  A `none` result is a Go runtime fault in the body comparison;
otherwise the result carries the test outcome and the updated store. -/
def executeTest (suite : TestSuiteSpec) (cfg : RunConfig) (test : TestSpec)
    (extractedFields : Store) (httpDo : HttpRequest → Except String HttpResponse) :
    Option (TestResult × Store) :=
  match prepBody test extractedFields with
  | .error e => some (Failed test.name [e], extractedFields)
  | .ok (requestBody, fields1) =>
    let baseUrl := resolveBaseUrl cfg.baseUrl suite.baseUrl test.request.baseUrl
    match templateReplace test.request.url fields1 with
    | (_, some e) => some (Failed test.name [e], fields1)
    | (requestUrl, none) =>
      match buildRequestHeaders cfg test fields1 with
      | .error e => some (Failed test.name [e], fields1)
      | .ok reqHeaders =>
        match httpDo ⟨test.request.method, baseUrl ++ requestUrl, reqHeaders, requestBody⟩ with
        | .error e => some (Failed test.name ["Error making request: " ++ e], fields1)
        | .ok resp =>
          let statusErrs :=
            if resp.statusCode != test.expectedResponse.statusCode then
              ["Expected http " ++ toString test.expectedResponse.statusCode ++
               " but got http " ++ toString resp.statusCode]
            else []
          let fields2 := memoizeRespHeaders test.name resp.headers fields1
          let headerErrs := checkExpectedHeaders fields2 resp.headers test.expectedResponse.headers
          let errs1 := statusErrs ++ headerErrs
          match test.expectedResponse.body with
          | .null =>
            let errs2 := errs1 ++
              (if resp.body == "" then []
               else ["Expected response payload %!s(<nil>) but got empty response"])
            if errs2.isEmpty then some (Passed test.name, fields2)
            else some (Failed test.name errs2, fields2)
          | expectedBody =>
            match parseJson resp.body with
            | none =>
              some (Failed test.name
                (errs1 ++ ["Error parsing json response from server: json unmarshal error"]), fields2)
            | some r =>
              match compareBody suite test.name fields2 r expectedBody with
              | none => none
              | some (bodyErrs, fields3) =>
                let allErrs := errs1 ++ bodyErrs
                if allErrs.isEmpty then some (Passed test.name, fields3)
                else
                  some (Failed test.name
                    (allErrs ++ ["Full response payload from server: " ++ resp.body]), fields3)

/-! ## Suite Executor (suite.go `ExecuteSuite`, lines 156-229).  Reading
and JSON-decoding the suite file are I/O collaborators outside the
embedding; `ExecuteSuite` starts from the decoded spec. -/

/-- The validation regexp `^[a-zA-Z0-9]*$` (suite.go line 174): every
character alphanumeric ASCII; the empty string matches. -/
def nameOk (s : String) : Bool := s.data.all Char.isAlphanum

/-- The validation loop (suite.go lines 173-184): returns the first
violation's error, checking the name shape before duplication. -/
def validateTests : List TestSpec → List String → Option String
  | [], _ => none
  | t :: rest, seen =>
    if !nameOk t.name then
      some ("invalid test case name: \x27" ++ t.name ++ "\x27, must be alphanumeric without spaces")
    else if seen.contains t.name then
      some ("test case \x27" ++ t.name ++ "\x27 defined twice")
    else validateTests rest (t.name :: seen)

/-- The run loop (suite.go lines 199-221): tests execute sequentially in
declaration order, sharing one store; a suite- or test-level skip flag
short-circuits to a Skipped result without executing.  A runtime fault in
any test crashes the run (`none`). -/
def runTests (suite : TestSuiteSpec) (cfg : RunConfig)
    (httpDo : HttpRequest → Except String HttpResponse) :
    List TestSpec → Store → Option (List TestResult)
  | [], _ => some []
  | t :: rest, fields =>
    if suite.skip || t.skip then
      match runTests suite cfg httpDo rest fields with
      | none => none
      | some rs => some (Skipped t.name :: rs)
    else
      match executeTest suite cfg t fields httpDo with
      | none => none
      | some (r, fields') =>
        match runTests suite cfg httpDo rest fields' with
        | none => none
        | some rs => some (r :: rs)

structure TestSuiteResultM where
  passed : List TestResult
  failed : List TestResult
  skipped : List TestResult
  totalTests : Nat

/-- Result aggregation (suite.go lines 209-215, 222-228). -/
def aggregate (rs : List TestResult) : TestSuiteResultM :=
  { passed := rs.filter (fun r => r.passed)
    failed := rs.filter (fun r => !r.passed && !r.skipped)
    skipped := rs.filter (fun r => !r.passed && r.skipped)
    totalTests := rs.length }

/-- suite.go `ExecuteSuite` (lines 156-229), from the decoded suite spec:
validate every test name, then run the tests in order over one shared
store.  `.error` is the validation abort (no test is executed and no
request sent); `.ok none` is a runtime fault during some test. -/
def ExecuteSuite (cfg : RunConfig) (suiteSpec : TestSuiteSpec)
    (httpDo : HttpRequest → Except String HttpResponse) :
    Except String (Option TestSuiteResultM) :=
  match validateTests suiteSpec.tests [] with
  | some e => .error e
  | none =>
    match runTests suiteSpec cfg httpDo suiteSpec.tests [] with
    | none => .ok none
    | some rs => .ok (some (aggregate rs))

/-! ## Spec-side helper definitions used to state the claims -/

/-- Does `s` contain a substring matching the placeholder pattern?
(A match of the anchored matcher at some position of `s`.) -/
def hasPlaceholder (s : String) : Bool :=
  (List.range s.data.length).any (fun i => (matchAt (s.data.drop i)).isSome)

/-- The first match text (in match order) whose trimmed variable name has
no entry in the store. -/
def firstMissingVar (fields : Store) : List String → Option String
  | [] => none
  | m :: rest =>
    if (lookupStore fields (trimVar m)).isSome then firstMissingVar fields rest
    else some (trimVar m)

/-- Are all elements of a decoded array objects? -/
def allObjItems : JsonItems → Bool
  | .nil => true
  | .cons (.obj _) tl => allObjItems tl
  | .cons _ _ => false

end Apirunner

namespace Apirunner

/-! ## Supporting lemmas -/

theorem findAllGo_nil_of_no_match :
    ∀ (fuel : Nat) (cs : List Char),
      (∀ i < cs.length, matchAt (cs.drop i) = none) → findAllGo fuel cs = [] := by
  intro fuel
  induction fuel with
  | zero => intro cs _; cases cs <;> rfl
  | succ fuel ih =>
    intro cs h
    cases cs with
    | nil => rfl
    | cons c rest =>
      have h0 : matchAt (c :: rest) = none := h 0 (Nat.succ_pos _)
      simp only [findAllGo, h0]
      exact ih rest (fun i hi => h (i + 1) (Nat.succ_lt_succ hi))

theorem findAllMatches_nil_of_not_hasPlaceholder (s : String)
    (h : hasPlaceholder s = false) : findAllMatches s = [] := by
  have hm : ∀ i < s.data.length, matchAt (s.data.drop i) = none := by
    intro i hi
    have h' := List.any_eq_false.mp h i (List.mem_range.mpr hi)
    exact Option.not_isSome_iff_eq_none.mp (by simpa using h')
  unfold findAllMatches
  rw [findAllGo_nil_of_no_match s.data.length s.data hm]
  rfl

theorem templateSub_missing (fields : Store) :
    ∀ (ms : List String) (s : String) (tok : String),
      firstMissingVar fields ms = some tok →
      (templateSub fields ms s).2 =
        some ("missing template value for var: \x27" ++ tok ++ "\x27") := by
  intro ms
  induction ms with
  | nil => intro s tok h; simp [firstMissingVar] at h
  | cons m rest ih =>
    intro s tok h
    simp only [firstMissingVar] at h
    by_cases hl : (lookupStore fields (trimVar m)).isSome
    · rw [if_pos hl] at h
      obtain ⟨v, hv⟩ := Option.isSome_iff_exists.mp hl
      simp only [templateSub, hv]
      exact ih _ tok h
    · rw [if_neg hl] at h
      have hv : lookupStore fields (trimVar m) = none := Option.not_isSome_iff_eq_none.mp hl
      simp only [templateSub, hv]
      simpa using congrArg (fun t => some ("missing template value for var: \x27" ++ t ++ "\x27"))
        (Option.some.inj h)

/-! ## Claims -/

/-- C7: for every test case, the base URL follows the precedence
request-level override > suite-level override > run-level default, with
empty strings falling through to the next level (suite.go lines
261-267; `executeTest` dispatches the request to
`resolveBaseUrl cfg.baseUrl suite.baseUrl test.request.baseUrl ++ url`). -/
theorem resolveBaseUrl_precedence (cfgUrl suiteUrl reqUrl : String) :
    (reqUrl ≠ "" → resolveBaseUrl cfgUrl suiteUrl reqUrl = reqUrl) ∧
    (reqUrl = "" → suiteUrl ≠ "" → resolveBaseUrl cfgUrl suiteUrl reqUrl = suiteUrl) ∧
    (reqUrl = "" → suiteUrl = "" → resolveBaseUrl cfgUrl suiteUrl reqUrl = cfgUrl) := by
  refine ⟨fun h => ?_, fun h1 h2 => ?_, fun h1 h2 => ?_⟩ <;>
    simp [resolveBaseUrl, *]

/-- Witness for C7 at concrete URLs. -/
theorem resolveBaseUrl_precedence_witness :
    resolveBaseUrl "http://run" "http://suite" "http://req" = "http://req" ∧
    resolveBaseUrl "http://run" "http://suite" "" = "http://suite" ∧
    resolveBaseUrl "http://run" "" "" = "http://run" :=
  ⟨(resolveBaseUrl_precedence "http://run" "http://suite" "http://req").1 (by decide),
   (resolveBaseUrl_precedence "http://run" "http://suite" "").2.1 rfl (by decide),
   (resolveBaseUrl_precedence "http://run" "" "").2.2 rfl rfl⟩

/-- C10: `flatten` applied to a top-level scalar value (null, bool,
number or string) returns the empty mapping for every prefix and level:
the `switch` in suite.go lines 471-535 has cases only for arrays and
objects, so a scalar falls through and the scalar itself is never
recorded. -/
theorem flatten_scalar_eq_nil (v : Json) (pfx : String) (level : Nat)
    (h : isScalar v = true) : flatten v pfx level = [] := by
  cases v <;> simp_all [isScalar, flatten]

/-- Witness for C10 at each scalar shape. -/
theorem flatten_scalar_eq_nil_witness :
    flatten Json.null "p" 0 = [] ∧ flatten (Json.bool true) "" 3 = [] ∧
    flatten (Json.num 5) "q" 0 = [] ∧ flatten (Json.str "s") "r" 1 = [] :=
  ⟨flatten_scalar_eq_nil _ _ _ rfl, flatten_scalar_eq_nil _ _ _ rfl,
   flatten_scalar_eq_nil _ _ _ rfl, flatten_scalar_eq_nil _ _ _ rfl⟩

/-- C8: for every store and every string containing no substring matching
the placeholder pattern, `templateReplace` succeeds and returns the string
unchanged (suite.go lines 449-456: `FindAll` returns nil and the original
string is returned with a nil error). -/
theorem templateReplace_no_placeholder (s : String) (fields : Store)
    (h : hasPlaceholder s = false) : templateReplace s fields = (s, none) := by
  unfold templateReplace
  rw [findAllMatches_nil_of_not_hasPlaceholder s h]

/-- Witness for C8: a placeholder-free string with a populated store. -/
theorem templateReplace_no_placeholder_witness :
    hasPlaceholder "GET /users/42?q=a b" = false ∧
    templateReplace "GET /users/42?q=a b" [("q", Json.num 7)] = ("GET /users/42?q=a b", none) :=
  ⟨by decide, templateReplace_no_placeholder _ _ (by decide)⟩

/-- C1 (corrected): when some placeholder's token has no entry in the
store, `templateReplace` fails with an error naming the first such token
in match order (suite.go lines 458-467).  The string returned alongside
the error is the input with all earlier matches already substituted — not
necessarily the original input (see the counterexample). -/
theorem templateReplace_missing_token (s : String) (fields : Store) (tok : String)
    (h : firstMissingVar fields (findAllMatches s) = some tok) :
    (templateReplace s fields).2 =
      some ("missing template value for var: \x27" ++ tok ++ "\x27") := by
  unfold templateReplace
  cases hms : findAllMatches s with
  | nil => rw [hms] at h; simp [firstMissingVar] at h
  | cons m rest =>
    rw [hms] at h
    exact templateSub_missing fields (m :: rest) s tok h

/-- Counterexample for C1 as stated: with store `{a ↦ "v"}` and input
`"{{a}} {{b}}"`, the resolvable first placeholder is substituted before
the missing `b` is discovered, so the string returned with the error is
the partially substituted `"v {{b}}"`, not the original input. -/
theorem templateReplace_missing_token_counterexample :
    templateReplace "\x7b\x7ba\x7d\x7d \x7b\x7bb\x7d\x7d" [("a", Json.str "v")] =
      ("v \x7b\x7bb\x7d\x7d", some "missing template value for var: \x27b\x27") ∧
    "v \x7b\x7bb\x7d\x7d" ≠ "\x7b\x7ba\x7d\x7d \x7b\x7bb\x7d\x7d" :=
  ⟨rfl, by decide⟩

/-- Witness for C1 at a concrete unresolved token. -/
theorem templateReplace_missing_token_witness :
    firstMissingVar [] (findAllMatches "/u/\x7b\x7b A.userIdWrongVar \x7d\x7d") = some "A.userIdWrongVar" ∧
    (templateReplace "/u/\x7b\x7b A.userIdWrongVar \x7d\x7d" []).2 =
      some "missing template value for var: \x27A.userIdWrongVar\x27" :=
  ⟨by decide, templateReplace_missing_token _ _ "A.userIdWrongVar" (by decide)⟩

theorem withPfx_succ (l : Nat) (pfx k : String) : withPfx (l + 1) pfx k = k := by
  simp [withPfx]

theorem withPfx_zero (pfx : String) (h : pfx ≠ "") (k : String) :
    withPfx 0 pfx k = pfx ++ "." ++ k := by
  simp [withPfx, h]

/-- C4 (corrected): object keys compose with `.` and array indices with
`[i]` when the array element is itself an object (or array); the example
`{"items":[{"id":7}]}` under a non-empty prefix `p` flattens to
`p.items[0].id ↦ 7`.  A scalar array element, however, is keyed by the
bare decimal index concatenated directly onto the enclosing object key
(suite.go lines 495-501: `strconv.Itoa(i)` with no brackets), so
`{"items":[x, y]}` yields keys `items0` and `items1`, not `items[0]` and
`items[1]`. -/
theorem flatten_path_composition (pfx : String) (h : pfx ≠ "") (x y : Json)
    (hx : isScalar x = true) (hy : isScalar y = true) :
    flatten (jobj [("items", jarr [jobj [("id", Json.num 7)]])]) pfx 0
      = [(pfx ++ ".items[0].id", Json.num 7)] ∧
    flatten (jobj [("items", jarr [x, y])]) "" 0 = [("items0", x), ("items1", y)] := by
  constructor
  · simp only [flatten, flattenFields, flattenItems, jobj, jarr, ofFields, ofItems,
      withPfx_succ, withPfx_zero pfx h, List.map_cons, List.map_nil, List.append_nil,
      List.nil_append]
    rw [show ("items" ++ ("[" ++ toString 0 ++ "]." ++ "id") : String) = "items[0].id" from rfl,
      String.append_assoc]
    rfl
  · cases x <;> cases y <;>
      simp_all [isScalar, flatten, flattenFields, flattenItems, withPfx, jobj, jarr,
        ofFields, ofItems] <;> constructor <;> rfl

/-- Counterexample for C4 as stated: flattening `{"items":[1, 2]}` (an
array of scalars under object key `items`) produces keys `items0` and
`items1`; the key `items[0]` the claim promises is absent. -/
theorem flatten_scalar_array_counterexample :
    flatten (jobj [("items", jarr [Json.num 1, Json.num 2])]) "" 0
      = [("items0", Json.num 1), ("items1", Json.num 2)] ∧
    assocLookup (flatten (jobj [("items", jarr [Json.num 1, Json.num 2])]) "" 0) "items[0]"
      = none :=
  ⟨rfl, rfl⟩

/-- Witness for C4 at concrete prefix and scalars. -/
theorem flatten_path_composition_witness :
    flatten (jobj [("items", jarr [jobj [("id", Json.num 7)]])]) "p" 0
      = [("p.items[0].id", Json.num 7)] ∧
    flatten (jobj [("items", jarr [Json.num 3, Json.str "s"])]) "" 0
      = [("items0", Json.num 3), ("items1", Json.str "s")] :=
  ⟨(flatten_path_composition "p" (by decide) (Json.num 3) (Json.str "s") rfl rfl).1,
   (flatten_path_composition "p" (by decide) (Json.num 3) (Json.str "s") rfl rfl).2⟩

theorem validateTests_none_iff :
    ∀ (ts : List TestSpec) (seen : List String),
      validateTests ts seen = none ↔
        ((∀ t ∈ ts, nameOk t.name = true) ∧ (ts.map (fun t => t.name)).Nodup ∧
         ∀ t ∈ ts, t.name ∉ seen) := by
  intro ts
  induction ts with
  | nil => intro seen; simp [validateTests]
  | cons t rest ih =>
    intro seen
    match hn : nameOk t.name with
    | false =>
      simp only [validateTests, hn, Bool.not_false, if_true]
      constructor
      · intro hcontra; cases hcontra
      · rintro ⟨hall, -, -⟩
        rw [hall t (by simp)] at hn; cases hn
    | true =>
      match hs : seen.contains t.name with
      | true =>
        simp only [validateTests, hn, Bool.not_true, Bool.false_eq_true, if_false, hs, if_true]
        constructor
        · intro hcontra; cases hcontra
        · rintro ⟨-, -, hseen⟩
          exact absurd (List.elem_iff.mp hs) (hseen t (by simp))
      | false =>
        simp only [validateTests, hn, Bool.not_true, Bool.false_eq_true, if_false, hs,
          ih (t.name :: seen)]
        have hts : t.name ∉ seen := fun hmem => by
          have hc : seen.contains t.name = true := List.elem_iff.mpr hmem
          rw [hc] at hs; cases hs
        constructor
        · rintro ⟨hall, hnd, hsn⟩
          refine ⟨?_, ?_, ?_⟩
          · intro u hu
            rcases List.mem_cons.mp hu with rfl | hu'
            · exact hn
            · exact hall u hu'
          · refine List.nodup_cons.mpr ⟨?_, hnd⟩
            intro hmem
            rcases List.mem_map.mp hmem with ⟨u, hu, hname⟩
            exact hsn u hu (by simp [hname])
          · intro u hu
            rcases List.mem_cons.mp hu with rfl | hu'
            · exact hts
            · intro hmem; exact hsn u hu' (List.mem_cons_of_mem _ hmem)
        · rintro ⟨hall, hnd, hsn⟩
          refine ⟨fun u hu => hall u (List.mem_cons_of_mem _ hu), (List.nodup_cons.mp hnd).2, ?_⟩
          intro u hu hmem
          rcases List.mem_cons.mp hmem with hname | hmem'
          · exact (List.nodup_cons.mp hnd).1 (List.mem_map.mpr ⟨u, hu, hname⟩)
          · exact hsn u (List.mem_cons_of_mem _ hu) hmem'

/-- C2 (corrected): `ExecuteSuite` rejects — with an error, before any
test executes and before any request is sent — every suite containing a
test whose name has a non-alphanumeric character or duplicates another
test's name (suite.go lines 173-184).  An empty name, however, is
accepted: the validation regexp `^[a-zA-Z0-9]*$` matches the empty string
(see the counterexample). -/
theorem executeSuite_rejects_invalid (cfg : RunConfig) (suiteSpec : TestSuiteSpec)
    (httpDo : HttpRequest → Except String HttpResponse)
    (h : (∃ t ∈ suiteSpec.tests, nameOk t.name = false) ∨
         ¬ (suiteSpec.tests.map (fun t => t.name)).Nodup) :
    ∃ msg, ExecuteSuite cfg suiteSpec httpDo = Except.error msg := by
  have hv : validateTests suiteSpec.tests [] ≠ none := by
    intro hnone
    rcases (validateTests_none_iff suiteSpec.tests []).mp hnone with ⟨hall, hnd, -⟩
    rcases h with ⟨t, ht, hbad⟩ | hdup
    · rw [hall t ht] at hbad; cases hbad
    · exact hdup hnd
  cases he : validateTests suiteSpec.tests [] with
  | none => exact absurd he hv
  | some e => exact ⟨e, by simp [ExecuteSuite, he]⟩

/-- A trivial transport stub used by concrete executions. -/
def trivialClient : HttpRequest → Except String HttpResponse :=
  fun _ => Except.ok ⟨200, [], ""⟩

/-- A suite whose single test has the empty name. -/
def emptyNameSuite : TestSuiteSpec :=
  ⟨false, [], "", [⟨"", false, ⟨"GET", "", "", Json.null, []⟩, ⟨200, Json.null, []⟩⟩]⟩

/-- Counterexample for C2 as stated: a suite whose single test has the
empty name passes validation (`^[a-zA-Z0-9]*$` matches `""`), no error is
returned, and the test is executed to a Passed result. -/
theorem executeSuite_empty_name_counterexample :
    nameOk "" = true ∧
    ExecuteSuite ⟨"", []⟩ emptyNameSuite trivialClient
      = Except.ok (some ⟨[Passed ""], [], [], 1⟩) :=
  ⟨rfl, rfl⟩

/-- A test whose name contains a space (invalid per the validation
regexp). -/
def badNameTest : TestSpec :=
  ⟨"bad name", false, ⟨"GET", "", "", Json.null, []⟩, ⟨200, Json.null, []⟩⟩

/-- A validly named trivial test. -/
def plainTestA : TestSpec :=
  ⟨"A", false, ⟨"GET", "", "", Json.null, []⟩, ⟨200, Json.null, []⟩⟩

/-- Witness for C2: a name with a space is rejected, as is a duplicate. -/
theorem executeSuite_rejects_invalid_witness :
    (∃ msg, ExecuteSuite ⟨"", []⟩ ⟨false, [], "", [badNameTest]⟩ trivialClient
        = Except.error msg) ∧
    (∃ msg, ExecuteSuite ⟨"", []⟩ ⟨false, [], "", [plainTestA, plainTestA]⟩ trivialClient
        = Except.error msg) :=
  ⟨executeSuite_rejects_invalid _ _ _ (Or.inl ⟨badNameTest, by simp, by decide⟩),
   executeSuite_rejects_invalid _ _ _ (Or.inr (by simp [plainTestA]))⟩

theorem compareArrayElems_isSome (suite : TestSuiteSpec) (name : String) :
    ∀ (xs ys : JsonItems) (i : Nat) (fields : Store),
      allObjItems xs = true → allObjItems ys = true →
      (compareArrayElems suite name i xs ys fields).isSome = true
  | .nil, ys, _, _, _, _ => by cases ys <;> rfl
  | .cons hd tl, ys, i, fields, hx, hy => by
    cases ys with
    | nil => cases hd <;> rfl
    | cons hd2 tl2 =>
      cases hd with
      | obj ao =>
        cases hd2 with
        | obj bo =>
          have hx' : allObjItems tl = true := by simpa [allObjItems] using hx
          have hy' : allObjItems tl2 = true := by simpa [allObjItems] using hy
          simp only [compareArrayElems]
          obtain ⟨v, hv⟩ := Option.isSome_iff_exists.mp
            (compareArrayElems_isSome suite name tl tl2 (i + 1)
              (compareObjects suite ao bo fields (name ++ "[" ++ toString i ++ "]")).2.2 hx' hy')
          rw [hv]
          rfl
        | null => simp [allObjItems] at hy
        | bool b => simp [allObjItems] at hy
        | num n => simp [allObjItems] at hy
        | str s => simp [allObjItems] at hy
        | arr zs => simp [allObjItems] at hy
      | null => simp [allObjItems] at hx
      | bool b => simp [allObjItems] at hx
      | num n => simp [allObjItems] at hx
      | str s => simp [allObjItems] at hx
      | arr zs => simp [allObjItems] at hx

/-- C5 (corrected): for array-shaped actual and expected bodies, a length
mismatch records exactly the one summary error, leaves the store
untouched and performs no per-element comparison; with equal lengths the
branch is exactly the per-index loop `compareArrayElems` (prefix
`<name>[<i>]`), which completes whenever every element of both arrays is
an object — a non-object element fails the per-element interface type
assertion and faults (see the counterexample). -/
theorem compareBody_array_branch (suite : TestSuiteSpec) (name : String)
    (fields : Store) (xs ys : JsonItems) :
    (itemsLen xs ≠ itemsLen ys →
      compareBody suite name fields (.arr xs) (.arr ys)
        = some (["The number of array elements in response and expectedResponse don\x27t match"],
                fields)) ∧
    (itemsLen xs = itemsLen ys →
      compareBody suite name fields (.arr xs) (.arr ys)
        = compareArrayElems suite name 0 xs ys fields) ∧
    (itemsLen xs = itemsLen ys → allObjItems xs = true → allObjItems ys = true →
      (compareBody suite name fields (.arr xs) (.arr ys)).isSome = true) := by
  refine ⟨fun h => ?_, fun h => ?_, fun h hx hy => ?_⟩
  · simp [compareBody, h]
  · simp [compareBody, h]
  · simp [compareBody, h, compareArrayElems_isSome suite name xs ys 0 fields hx hy]

/-- Counterexample for C5 as stated: equal-length arrays whose elements
are scalars — the claim promises a per-index comparison via the object
differ, but the element type assertion
`response[i].(map[string]interface{})` (suite.go line 372) fails and the
comparison faults. -/
theorem compareBody_equal_length_scalar_counterexample :
    itemsLen (ofItems [Json.num 1]) = itemsLen (ofItems [Json.num 2]) ∧
    compareBody ⟨false, [], "", []⟩ "t" [] (jarr [Json.num 1]) (jarr [Json.num 2]) = none :=
  ⟨rfl, rfl⟩

/-- Witness for C5 at concrete arrays. -/
theorem compareBody_array_branch_witness :
    compareBody ⟨false, [], "", []⟩ "w" [] (jarr [jobj [("a", Json.num 1)]]) (jarr [])
      = some (["The number of array elements in response and expectedResponse don\x27t match"],
              []) ∧
    (compareBody ⟨false, [], "", []⟩ "w" [] (jarr [jobj [("a", Json.num 1)]])
      (jarr [jobj [("a", Json.num 1)]])).isSome = true :=
  ⟨(compareBody_array_branch _ "w" [] (ofItems [jobj [("a", Json.num 1)]]) (ofItems [])).1
     (by decide),
   (compareBody_array_branch _ "w" [] (ofItems [jobj [("a", Json.num 1)]])
      (ofItems [jobj [("a", Json.num 1)]])).2.2 rfl rfl rfl⟩

/-- The test and transport of the C3 failing input: the server answers
`{"a": 1}` (an object) with the expected status, while the suite expects
the scalar body `42`. -/
def testShapeMismatch : TestSpec :=
  ⟨"T", false, ⟨"GET", "", "/x", Json.null, []⟩, ⟨200, Json.num 42, []⟩⟩

def clientObjBody : HttpRequest → Except String HttpResponse :=
  fun _ => Except.ok ⟨200, [], "\x7b\"a\": 1\x7d"⟩

/-- C3 (code bug): when the actual body decodes to an object (resp.
array) and the expected body has a different top-level shape, the
unchecked interface type assertion on the expected body (suite.go lines
357 and 367) fails: the comparison — and the whole test execution —
faults instead of completing with a single summary error in the test's
error list.  (Only the scalar default branch reaches `deep.Equal`, which
does report shape mismatches as a summary diff.) -/
theorem compareBody_shape_mismatch_faults :
    compareBody ⟨false, [], "", []⟩ "t" [] (jobj [("a", Json.num 1)]) (Json.num 42) = none ∧
    compareBody ⟨false, [], "", []⟩ "t" [] (jarr [Json.num 1]) (jobj []) = none ∧
    compareBody ⟨false, [], "", []⟩ "t" [] (Json.num 1) (jobj [])
      = some (["float64 != map[string]interface \x7b\x7d"], []) ∧
    executeTest ⟨false, [], "", []⟩ ⟨"", []⟩ testShapeMismatch [] clientObjBody = none :=
  ⟨rfl, rfl, rfl, rfl⟩

/-- C6: when `expectedResponse.body` is absent (decoded to nil), the test
passes iff the raw response body is empty and the status/header checks
recorded no error; a non-empty raw body appends an error and the test is
Failed.  The branch (suite.go lines 334-346) returns before
`json.Unmarshal`, so no JSON decoding of the body is attempted — the
conclusion's result is independent of `parseJson`. -/
theorem executeTest_nil_expected_body
    (suite : TestSuiteSpec) (cfg : RunConfig) (test : TestSpec) (fields : Store)
    (httpDo : HttpRequest → Except String HttpResponse)
    (requestBody : String) (fields1 : Store) (requestUrl : String)
    (reqHeaders : List (String × String)) (resp : HttpResponse)
    (hbody : test.expectedResponse.body = Json.null)
    (h1 : prepBody test fields = Except.ok (requestBody, fields1))
    (h2 : templateReplace test.request.url fields1 = (requestUrl, none))
    (h3 : buildRequestHeaders cfg test fields1 = Except.ok reqHeaders)
    (h4 : httpDo ⟨test.request.method,
            resolveBaseUrl cfg.baseUrl suite.baseUrl test.request.baseUrl ++ requestUrl,
            reqHeaders, requestBody⟩ = Except.ok resp) :
    let fields2 := memoizeRespHeaders test.name resp.headers fields1
    let errs1 :=
      (if resp.statusCode != test.expectedResponse.statusCode then
         ["Expected http " ++ toString test.expectedResponse.statusCode ++
          " but got http " ++ toString resp.statusCode]
       else []) ++ checkExpectedHeaders fields2 resp.headers test.expectedResponse.headers
    let errs2 := errs1 ++
      (if resp.body == "" then []
       else ["Expected response payload %!s(<nil>) but got empty response"])
    executeTest suite cfg test fields httpDo
      = some ((if errs2.isEmpty then Passed test.name else Failed test.name errs2), fields2) ∧
    ((if errs2.isEmpty then Passed test.name else Failed test.name errs2).passed = true ↔
      (resp.body = "" ∧ errs1 = [])) := by
  intro fields2 errs1 errs2
  constructor
  · simp only [executeTest, h1, h2, h3, h4, hbody]
    simp [fields2, errs1, errs2]
    split <;> rfl
  · by_cases hb : resp.body = ""
    · have hbb : (resp.body == "") = true := beq_iff_eq.mpr hb
      by_cases he : errs1 = []
      · have : errs2 = [] := by simp [errs2, hbb, he]
        simp [this, Passed, hb, he]
      · have : ¬ errs2.isEmpty := by
          simp only [errs2, hbb, if_true, List.append_nil]
          simpa [List.isEmpty_iff] using he
        simp [List.isEmpty_iff] at this
        simp [List.isEmpty_iff, this, Failed, hb, he]
    · have hbb : (resp.body == "") = false := beq_eq_false_iff_ne.mpr hb
      have : ¬ errs2.isEmpty := by
        simp [errs2, hbb, List.isEmpty_iff]
      simp [List.isEmpty_iff] at this
      simp [List.isEmpty_iff, this, Failed, hb]

/-- A test expecting status 200 and no response payload. -/
def testNilBody : TestSpec :=
  ⟨"N", false, ⟨"GET", "", "/n", Json.null, []⟩, ⟨200, Json.null, []⟩⟩

/-- A transport answering 200 with the non-empty body `oops`. -/
def clientOops : HttpRequest → Except String HttpResponse :=
  fun _ => Except.ok ⟨200, [], "oops"⟩

/-- Witness for C6: a non-empty raw body with all other checks passing is
Failed with exactly the unexpected-payload error; an empty body passes. -/
theorem executeTest_nil_expected_body_witness :
    executeTest ⟨false, [], "", []⟩ ⟨"", []⟩ testNilBody [] clientOops
      = some (Failed "N" ["Expected response payload %!s(<nil>) but got empty response"], []) ∧
    executeTest ⟨false, [], "", []⟩ ⟨"", []⟩ testNilBody [] trivialClient
      = some (Passed "N", []) := by
  constructor
  · have h := executeTest_nil_expected_body ⟨false, [], "", []⟩ ⟨"", []⟩ testNilBody []
      clientOops "\x7b\x7d" [] "/n" [] ⟨200, [], "oops"⟩ rfl rfl rfl rfl rfl
    exact h.1
  · have h := executeTest_nil_expected_body ⟨false, [], "", []⟩ ⟨"", []⟩ testNilBody []
      trivialClient "\x7b\x7d" [] "/n" [] ⟨200, [], ""⟩ rfl rfl rfl rfl rfl
    exact h.1

/-! ## Store growth (claim C9) -/

/-- `b` extends `a`: `b` is `a` with newer bindings consed in front.  All
store mutations in the executor and differ have this shape, because the
store insert is a cons. -/
def StoreExt (a b : Store) : Prop := ∃ pre : List (String × Json), b = pre ++ a

theorem storeExt_refl (a : Store) : StoreExt a a := ⟨[], rfl⟩

theorem storeExt_trans {a b c : Store} (h1 : StoreExt a b) (h2 : StoreExt b c) :
    StoreExt a c := by
  obtain ⟨p, hp⟩ := h1
  obtain ⟨q, hq⟩ := h2
  exact ⟨q ++ p, by rw [hq, hp, List.append_assoc]⟩

theorem storeExt_insertAll : ∀ (kvs : List (String × Json)) (a : Store),
    StoreExt a (insertAll a kvs)
  | [], a => storeExt_refl a
  | kv :: rest, a => by
    obtain ⟨p, hp⟩ := storeExt_insertAll rest (kv :: a)
    exact ⟨p ++ [kv], by simp [insertAll, hp]⟩

theorem lookupStore_mono {a b : Store} (h : StoreExt a b) (k : String)
    (hk : (lookupStore a k).isSome = true) : (lookupStore b k).isSome = true := by
  obtain ⟨p, rfl⟩ := h
  induction p with
  | nil => exact hk
  | cons kv rest ih =>
    obtain ⟨k0, v0⟩ := kv
    show (lookupStore ((k0, v0) :: (rest ++ a)) k).isSome = true
    simp only [lookupStore]
    by_cases hkk : (k0 == k) = true
    · simp [hkk]
    · simp only [hkk, if_false]
      simpa using ih

theorem prepBody_storeExt (test : TestSpec) (fields : Store) (rb : String) (f1 : Store)
    (h : prepBody test fields = Except.ok (rb, f1)) : StoreExt fields f1 := by
  unfold prepBody at h
  split at h
  · cases h; exact storeExt_refl _
  · simp only [] at h
    split at h
    · cases h
    · cases h; exact storeExt_insertAll _ _

theorem compareObjects_storeExt (suite : TestSuiteSpec) (obj e : JsonFields)
    (fields : Store) (pfx : String) :
    StoreExt fields (compareObjects suite obj e fields pfx).2.2 := by
  unfold compareObjects
  simp only []
  split
  · exact storeExt_insertAll _ _
  · split
    · exact storeExt_insertAll _ _
    · exact storeExt_insertAll _ _

theorem compareArrayElems_storeExt (suite : TestSuiteSpec) (name : String) :
    ∀ (xs ys : JsonItems) (i : Nat) (fields : Store) (errs : List String) (st : Store),
      compareArrayElems suite name i xs ys fields = some (errs, st) → StoreExt fields st
  | .nil, ys, i, fields, errs, st => by
    cases ys <;> (intro h; simp only [compareArrayElems] at h; cases h; exact storeExt_refl _)
  | .cons hd tl, .nil, i, fields, errs, st => by
    intro h; simp only [compareArrayElems] at h; cases h; exact storeExt_refl _
  | .cons hd tl, .cons hd2 tl2, i, fields, errs, st => by
    intro h
    cases hd <;> cases hd2 <;>
      first
      | (simp only [compareArrayElems] at h; cases h)
      | skip
    case obj.obj ao bo =>
      simp only [compareArrayElems] at h
      split at h
      · cases h
      · next restErrs f2 hrec =>
        have htail : StoreExt
            (compareObjects suite ao bo fields (name ++ "[" ++ toString i ++ "]")).2.2 f2 :=
          compareArrayElems_storeExt suite name tl tl2 (i + 1) _ restErrs f2 hrec
        have hco := compareObjects_storeExt suite ao bo fields (name ++ "[" ++ toString i ++ "]")
        cases h
        exact storeExt_trans hco htail

/-- Both branches of such a conditional carry the same store. -/
theorem ite_some_snd {c : Prop} [Decidable c] {α β : Type} {a b : α} {x : β}
    {r : α} {sz : β} (h : (if c then some (a, x) else some (b, x)) = some (r, sz)) :
    sz = x := by
  split at h <;> (cases h; rfl)

theorem compareBody_storeExt (suite : TestSuiteSpec) (name : String) (fields : Store)
    (r expected : Json) (errs : List String) (st : Store)
    (h : compareBody suite name fields r expected = some (errs, st)) : StoreExt fields st := by
  cases r with
  | obj o =>
    cases expected with
    | obj e =>
      simp only [compareBody] at h
      cases h
      exact compareObjects_storeExt suite o e fields name
    | null => simp only [compareBody] at h; cases h
    | bool b => simp only [compareBody] at h; cases h
    | num n => simp only [compareBody] at h; cases h
    | str s => simp only [compareBody] at h; cases h
    | arr ys => simp only [compareBody] at h; cases h
  | arr xs =>
    cases expected with
    | arr ys =>
      simp only [compareBody] at h
      split at h
      · cases h; exact storeExt_refl _
      · exact compareArrayElems_storeExt suite name xs ys 0 fields errs st h
    | null => simp only [compareBody] at h; cases h
    | bool b => simp only [compareBody] at h; cases h
    | num n => simp only [compareBody] at h; cases h
    | str s => simp only [compareBody] at h; cases h
    | obj o => simp only [compareBody] at h; cases h
  | null => simp only [compareBody] at h; cases h; exact storeExt_refl _
  | bool b => simp only [compareBody] at h; cases h; exact storeExt_refl _
  | num n => simp only [compareBody] at h; cases h; exact storeExt_refl _
  | str s => simp only [compareBody] at h; cases h; exact storeExt_refl _

theorem executeTest_storeExt (suite : TestSuiteSpec) (cfg : RunConfig) (test : TestSpec)
    (fields : Store) (httpDo : HttpRequest → Except String HttpResponse)
    (r : TestResult) (st : Store)
    (h : executeTest suite cfg test fields httpDo = some (r, st)) : StoreExt fields st := by
  simp only [executeTest] at h
  split at h
  · cases h; exact storeExt_refl _
  · next rb f1 hp =>
    have hext1 : StoreExt fields f1 := prepBody_storeExt test fields rb f1 hp
    split at h
    · cases h; exact hext1
    · split at h
      · cases h; exact hext1
      · split at h
        · cases h; exact hext1
        · next resp hd =>
          have hext2 : StoreExt fields (memoizeRespHeaders test.name resp.headers f1) :=
            storeExt_trans hext1 (storeExt_insertAll _ _)
          split at h
          · have hst := ite_some_snd h
            rw [hst]
            exact hext2
          · split at h
            · cases h; exact hext2
            · split at h
              · cases h
              · rename_i bodyErrs f3 heq
                have hst := ite_some_snd h
                rw [hst]
                exact storeExt_trans hext2
                  (compareBody_storeExt suite test.name _ _ _ bodyErrs f3 heq)

/-- C9: the Extracted Fields Store grows monotonically during a suite
run: the object differ (`compareObjects`) and the test-case executor
(`executeTest`) only cons new or overwriting bindings onto the store and
never delete, so every key present before is still present (possibly with
a newer value) after — on every exit path, including early failures. -/
theorem store_monotonic :
    (∀ (suite : TestSuiteSpec) (obj e : JsonFields) (fields : Store) (pfx k : String),
        (lookupStore fields k).isSome = true →
        (lookupStore (compareObjects suite obj e fields pfx).2.2 k).isSome = true) ∧
    (∀ (suite : TestSuiteSpec) (cfg : RunConfig) (test : TestSpec) (fields : Store)
        (httpDo : HttpRequest → Except String HttpResponse) (r : TestResult) (st : Store)
        (k : String),
        executeTest suite cfg test fields httpDo = some (r, st) →
        (lookupStore fields k).isSome = true → (lookupStore st k).isSome = true) :=
  ⟨fun suite obj e fields pfx k hk =>
     lookupStore_mono (compareObjects_storeExt suite obj e fields pfx) k hk,
   fun suite cfg test fields httpDo r st k h hk =>
     lookupStore_mono (executeTest_storeExt suite cfg test fields httpDo r st h) k hk⟩

/-- A test whose expected body is the object the transport answers. -/
def idTest : TestSpec :=
  ⟨"A", false, ⟨"GET", "", "/widgets", Json.null, []⟩, ⟨200, jobj [("id", Json.num 1)], []⟩⟩

def idClient : HttpRequest → Except String HttpResponse :=
  fun _ => Except.ok ⟨200, [], "\x7b\"id\": 1\x7d"⟩

/-- Witness for C9: a pre-existing key `seed` survives a comparison and a
full test execution that both write new keys. -/
theorem store_monotonic_witness :
    (lookupStore (compareObjects ⟨false, [], "", []⟩ (ofFields [("id", Json.num 1)])
        (ofFields [("id", Json.num 1)]) [("seed", Json.num 0)] "A").2.2 "seed").isSome = true ∧
    (lookupStore [("A.id", Json.num 1), ("seed", Json.num 0)] "seed").isSome = true := by
  constructor
  · exact store_monotonic.1 ⟨false, [], "", []⟩ _ _ [("seed", Json.num 0)] "A" "seed" (by decide)
  · exact store_monotonic.2 ⟨false, [], "", []⟩ ⟨"", []⟩ idTest [("seed", Json.num 0)] idClient
      (Passed "A") [("A.id", Json.num 1), ("seed", Json.num 0)] "seed" rfl (by decide)

end Apirunner

